import Mathlib

/-!
Verification of the test-case assembly stage (assembleTestCases) of the
cucumber-js runtime.  The repository ships the mocha test file
src/runtime/assemble_test_cases_spec.ts; the implementation module
assemble_test_cases.ts itself is not part of the sources, so the
operational definitions below are modelled from the specification,
with the behaviour pinned down by the test file taken as authoritative
wherever the two speak about the same scenario.

Identifier convention: the incrementing IdGenerator strategy renders a
0-based counter; we model the generated identifiers by the counter value
itself (a natural number), so identifier 0 stands for the string "0" of
the wire format.  Externally supplied identifiers (pickles, hooks, step
definitions) stay strings.
-/

namespace AssembleTestCases

/-- Modelled from the spec: ArgumentGroup — value (raw matched substring or
absent if the sub-group did not participate), start offset (character index
into the step text, absent if the group did not participate), and the ordered
nested capture-group children.  Mirrors messages.Group of @cucumber/messages. -/
inductive Group where
  | mk (value : Option String) (start : Option Nat) (children : List Group)

def Group.value : Group → Option String
  | .mk v _ _ => v

def Group.start : Group → Option Nat
  | .mk _ s _ => s

def Group.children : Group → List Group
  | .mk _ _ c => c

/-- Modelled from the spec: StepMatchArgument — a parameter type name together
with the root ArgumentGroup for that parameter. -/
structure StepMatchArgument where
  parameterTypeName : String
  group : Group

/-- Modelled from the spec: StepMatchArgumentsList — the wire wrapper holding
the stepMatchArguments of one matched step definition. -/
structure StepMatchArgumentsList where
  stepMatchArguments : List StepMatchArgument

/-- Modelled from the spec: TestStep of the wire contract.  Field presence is
modelled with Option: a hook step carries hookId and nothing else, a pickle
step carries pickleStepId, stepDefinitionIds and stepMatchArgumentsLists. -/
structure TestStep where
  id : Nat
  hookId : Option (List String)
  pickleStepId : Option String
  stepDefinitionIds : Option (List String)
  stepMatchArgumentsLists : Option (List StepMatchArgumentsList)

/-- Modelled from the spec: TestCase — identifier, pickle identifier, ordered
test steps. -/
structure TestCase where
  id : Nat
  pickleId : String
  testSteps : List TestStep

/-- Modelled from the spec: the envelope message wrapping exactly one TestCase
for the observer stream. -/
structure Envelope where
  testCase : TestCase

/-- Modelled from the spec: one step of a pickle — identifier and literal text. -/
structure PickleStep where
  id : String
  text : String
deriving DecidableEq

/-- Modelled from the spec: a pickle — identifier, ordered steps, tag set. -/
structure Pickle where
  id : String
  steps : List PickleStep
  tags : List String
deriving DecidableEq

/-- Modelled from the spec: a tag expression, a boolean predicate over the
pickle's tag set. -/
inductive TagExpr where
  | tag (name : String)
  | neg (e : TagExpr)
  | conj (a b : TagExpr)
  | disj (a b : TagExpr)
deriving DecidableEq

def TagExpr.eval : TagExpr → List String → Bool
  | .tag n, tags => tags.contains n
  | .neg e, tags => !(e.eval tags)
  | .conj a b, tags => a.eval tags && b.eval tags
  | .disj a b, tags => a.eval tags || b.eval tags

/-- Modelled from the spec: a registered hook — identifier and optional tag
expression restricting applicability (a hook with no tag expression always
matches). -/
structure HookDefinition where
  id : String
  tagExpression : Option TagExpr
deriving DecidableEq

/-- Modelled from the spec: a hook applies to a test case when it has no tag
expression or its tag expression evaluates to true on the pickle's tags. -/
def appliesToTestCase (h : HookDefinition) (p : Pickle) : Bool :=
  match h.tagExpression with
  | none => true
  | some e => e.eval p.tags

/-- Modelled from the spec: the parameter types exercised by the assembly
stage's contract — integer parsing and quoted-string matching. -/
inductive ParamType where
  | int
  | string
deriving DecidableEq

def paramTypeName : ParamType → String
  | .int => "int"
  | .string => "string"

/-- Modelled from the spec: a compiled step-definition pattern, a sequence of
literal chunks and typed parameter placeholders. -/
inductive PatternPart where
  | lit (s : String)
  | param (t : ParamType)
deriving DecidableEq

/-- Modelled from the spec: a registered step definition — identifier and
compiled match pattern. -/
structure StepDefinition where
  id : String
  expression : List PatternPart
deriving DecidableEq

/-- Modelled from the spec: the read-only support-code registry queried by the
assembler.  Step-level hook definitions are carried so that their (non-)effect
on assembly can be stated. -/
structure SupportCodeLibrary where
  stepDefinitions : List StepDefinition
  beforeTestCaseHookDefinitions : List HookDefinition
  afterTestCaseHookDefinitions : List HookDefinition
  beforeTestStepHookDefinitions : List HookDefinition
  afterTestStepHookDefinitions : List HookDefinition

/-! ### Step matcher -/

/-- Helper: consume an expected literal character sequence from the input,
returning the remainder on success. -/
def stripPrefixChars : List Char → List Char → Option (List Char)
  | [], cs => some cs
  | _ :: _, [] => none
  | p :: ps, c :: cs => if p = c then stripPrefixChars ps cs else none

/-- Helper: split off the leading maximal run of decimal digits. -/
def takeDigits : List Char → List Char × List Char
  | [] => ([], [])
  | c :: cs =>
    if c.isDigit then
      let (ds, r) := takeDigits cs
      (c :: ds, r)
    else ([], c :: cs)

/-- Modelled from the spec: the int parameter type matches an optionally
signed maximal digit run; its capture group has no nested groups. -/
def matchInt (cs : List Char) (pos : Nat) : Option (Group × List Char × Nat) :=
  match cs with
  | '-' :: rest =>
    let (ds, r) := takeDigits rest
    if ds.isEmpty then none
    else some (Group.mk (some (String.mk ('-' :: ds))) (some pos) [], r, pos + 1 + ds.length)
  | _ =>
    let (ds, r) := takeDigits cs
    if ds.isEmpty then none
    else some (Group.mk (some (String.mk ds)) (some pos) [], r, pos + ds.length)

/-- The single-quote character, written by code point to keep the source
free of quote-literal noise. -/
def squoteChar : Char := Char.ofNat 39

/-- Helper: scan quoted content up to the closing quote q.  Content is any
run of characters other than q and backslash, interleaved with
backslash-escape pairs.  Returns the content, the last escape-iteration
match (value and start offset) when one participated, and the remainder
after the closing quote. -/
def scanContent (q : Char) : List Char → Nat → Option (List Char × Option (List Char × Nat) × List Char)
  | [], _ => none
  | c :: cs, pos =>
    if c = q then some ([], none, cs)
    else if c = '\\' then
      match cs with
      | [] => none
      | d :: cs' =>
        match scanContent q cs' (pos + 2) with
        | some (xs, esc, r) =>
          some (c :: d :: xs,
                some (match esc with
                      | some e => e
                      | none => (c :: d :: xs, pos)),
                r)
        | none => none
    else
      match scanContent q cs (pos + 1) with
      | some (xs, esc, r) => some (c :: xs, esc, r)
      | none => none

/-- A capture group that did not participate in the match. -/
def nonPartGroup : Group := Group.mk none none []

/-- The non-participating alternative of the string parameter: its content
group, carrying its own non-participating escape group. -/
def altNonPart : Group := Group.mk none none [nonPartGroup]

/-- The escape-iteration group of a quoted-string content match. -/
def escGroupOf : Option (List Char × Nat) → Group
  | some (v, s) => Group.mk (some (String.mk v)) (some s) []
  | none => nonPartGroup

/-- Modelled from the spec: the string parameter type matches a
double-quoted or single-quoted string.  Its capture-group tree mirrors the
pattern's alternation: the outer group holds the quoted text, with one child
per alternative content group (each holding its escape group), the
alternative that did not participate left valueless. -/
def matchString (cs : List Char) (pos : Nat) : Option (Group × List Char × Nat) :=
  match cs with
  | [] => none
  | c :: rest =>
    if c = '"' then
      match scanContent '"' rest (pos + 1) with
      | some (content, esc, r) =>
        some (Group.mk (some (String.mk ('"' :: (content ++ ['"']))))
                (some pos)
                [Group.mk (some (String.mk content)) (some (pos + 1)) [escGroupOf esc],
                 altNonPart],
              r, pos + content.length + 2)
      | none => none
    else if c = squoteChar then
      match scanContent squoteChar rest (pos + 1) with
      | some (content, esc, r) =>
        some (Group.mk (some (String.mk (squoteChar :: (content ++ [squoteChar]))))
                (some pos)
                [altNonPart,
                 Group.mk (some (String.mk content)) (some (pos + 1)) [escGroupOf esc]],
              r, pos + content.length + 2)
      | none => none
    else none

/-- Dispatch a parameter type to its matcher. -/
def matchParamType : ParamType → List Char → Nat → Option (Group × List Char × Nat)
  | .int => matchInt
  | .string => matchString

/-- Modelled from the spec: match a compiled pattern against the step text
from the given position; on success return one StepMatchArgument per
parameter, each recording absolute offsets into the original text. -/
def matchPartsFrom : List PatternPart → List Char → Nat → Option (List StepMatchArgument)
  | [], cs, _ => if cs.isEmpty then some [] else none
  | .lit s :: ps, cs, pos =>
    match stripPrefixChars s.data cs with
    | some rest => matchPartsFrom ps rest (pos + s.length)
    | none => none
  | .param t :: ps, cs, pos =>
    match matchParamType t cs pos with
    | some (g, rest, pos') =>
      match matchPartsFrom ps rest pos' with
      | some args => some (StepMatchArgument.mk (paramTypeName t) g :: args)
      | none => none
    | none => none

/-- Match one step definition's pattern against the full step text. -/
def matchPattern (parts : List PatternPart) (text : String) : Option (List StepMatchArgument) :=
  matchPartsFrom parts text.data 0

/-- Modelled from the spec: the Step Matcher — return, in registry order, the
step definitions whose pattern matches the whole step text, each with its
decoded arguments.  Zero matches and multiple matches are both legitimate. -/
def matchSteps (defs : List StepDefinition) (text : String) :
    List (String × List StepMatchArgument) :=
  defs.filterMap (fun d => (matchPattern d.expression text).map (fun args => (d.id, args)))

/-! ### Assembly -/

/-- Thread the incrementing identifier counter through a list traversal. -/
def mapWithState (f : α → Nat → β × Nat) : List α → Nat → List β × Nat
  | [], c => ([], c)
  | a :: as, c =>
    let r := f a c
    let rs := mapWithState f as r.2
    (r.1 :: rs.1, rs.2)

/-- Modelled from the spec: emit a hook TestStep — a fresh identifier and a
single-element hookId list, no pickle-step fields. -/
def makeHookStep (h : HookDefinition) (c : Nat) : TestStep × Nat :=
  ({ id := c, hookId := some [h.id], pickleStepId := none,
     stepDefinitionIds := none, stepMatchArgumentsLists := none }, c + 1)

/-- Modelled from the spec: emit a pickle-step TestStep — a fresh identifier,
the pickle step's identifier, the ordered matched definition identifiers and
one StepMatchArgumentsList per match; no hookId. -/
def makePickleStep (lib : SupportCodeLibrary) (ps : PickleStep) (c : Nat) : TestStep × Nat :=
  let ms := matchSteps lib.stepDefinitions ps.text
  ({ id := c, hookId := none, pickleStepId := some ps.id,
     stepDefinitionIds := some (ms.map Prod.fst),
     stepMatchArgumentsLists := some (ms.map (fun m => StepMatchArgumentsList.mk m.2)) }, c + 1)

/-- The before-case hooks applying to a pickle, in registration order. -/
def beforeHooks (lib : SupportCodeLibrary) (p : Pickle) : List HookDefinition :=
  lib.beforeTestCaseHookDefinitions.filter (fun h => appliesToTestCase h p)

/-- The after-case hooks applying to a pickle, in registration order. -/
def afterHooks (lib : SupportCodeLibrary) (p : Pickle) : List HookDefinition :=
  lib.afterTestCaseHookDefinitions.filter (fun h => appliesToTestCase h p)

/-- Modelled from the spec: assemble one TestCase — a fresh test-case
identifier, then the matching before-case hook steps, the pickle-step steps
in pickle order, and the matching after-case hook steps, each step drawing
the next identifier as it is appended.  Step-level hooks contribute no test
steps, as pinned down by the repository's test file (the with-step-hooks
scenario expects a single test step). -/
def assembleTestCase (lib : SupportCodeLibrary) (pickle : Pickle) (c : Nat) : TestCase × Nat :=
  let beforeSteps := mapWithState makeHookStep (beforeHooks lib pickle) (c + 1)
  let pickleSteps := mapWithState (makePickleStep lib) pickle.steps beforeSteps.2
  let afterSteps := mapWithState makeHookStep (afterHooks lib pickle) pickleSteps.2
  ({ id := c, pickleId := pickle.id,
     testSteps := beforeSteps.1 ++ pickleSteps.1 ++ afterSteps.1 }, afterSteps.2)

/-- Modelled from the spec: the Plan Emitter — process pickles strictly in
input order; for each, assemble the test case, publish its envelope, and
record the pickle-id to TestCase entry; return the envelope stream, the
mapping and the final counter.  The mapping is an association list; the spec
guarantees its keys unique, one per input pickle. -/
def assembleTestCases (lib : SupportCodeLibrary) :
    List Pickle → Nat → List Envelope × List (String × TestCase) × Nat
  | [], c => ([], [], c)
  | p :: ps, c =>
    let r := assembleTestCase lib p c
    let rs := assembleTestCases lib ps r.2
    (Envelope.mk r.1 :: rs.1, (p.id, r.1) :: rs.2.1, rs.2.2)

/-- The identifiers of one test case in emission order: the test-case
identifier, then each test step's identifier. -/
def emittedIds (tc : TestCase) : List Nat :=
  tc.id :: tc.testSteps.map TestStep.id

/-- All identifiers assigned during one assembly call, in emission order. -/
def allEmittedIds (envs : List Envelope) : List Nat :=
  (envs.map (fun e => emittedIds e.testCase)).flatten

/-! ### Concrete scenarios of the test file -/

/-- The step definition Given a step of the test file (identifier chosen
concretely; the test reads it back from the registry). -/
def givenAStepDef : StepDefinition := StepDefinition.mk "def1" [.lit "a step"]

/-- Registry of the emits-testCase-messages scenario: one step definition,
no hooks. -/
def twoScenarioLib : SupportCodeLibrary := ⟨[givenAStepDef], [], [], [], []⟩

/-- Pickle of Scenario b: one step Given a step. -/
def pickleB : Pickle := ⟨"pickleB", [⟨"psB1", "a step"⟩], []⟩

/-- Pickle of Scenario c: one step Given a step. -/
def pickleC : Pickle := ⟨"pickleC", [⟨"psC1", "a step"⟩], []⟩

/-- Expected first test case of the emits-testCase-messages scenario. -/
def testCase1 : TestCase :=
  { id := 0, pickleId := "pickleB",
    testSteps :=
      [{ id := 1, hookId := none, pickleStepId := some "psB1",
         stepDefinitionIds := some ["def1"],
         stepMatchArgumentsLists := some [StepMatchArgumentsList.mk []] }] }

/-- Expected second test case of the emits-testCase-messages scenario. -/
def testCase2 : TestCase :=
  { id := 2, pickleId := "pickleC",
    testSteps :=
      [{ id := 3, hookId := none, pickleStepId := some "psC1",
         stepDefinitionIds := some ["def1"],
         stepMatchArgumentsLists := some [StepMatchArgumentsList.mk []] }] }

/-- Registry of the with-test-case-hooks scenario: one step definition, one
Before hook, one After hook. -/
def caseHooksLib : SupportCodeLibrary :=
  ⟨[givenAStepDef], [⟨"hook1", none⟩], [⟨"hook2", none⟩], [], []⟩

/-- Expected first test step of the with-test-case-hooks scenario: the
before-case hook step. -/
def hookStep1 : TestStep :=
  { id := 1, hookId := some ["hook1"], pickleStepId := none,
    stepDefinitionIds := none, stepMatchArgumentsLists := none }

/-- Expected second test step of the with-test-case-hooks scenario: the
pickle step. -/
def pickleStepB : TestStep :=
  { id := 2, hookId := none, pickleStepId := some "psB1",
    stepDefinitionIds := some ["def1"],
    stepMatchArgumentsLists := some [StepMatchArgumentsList.mk []] }

/-- Expected third test step of the with-test-case-hooks scenario: the
after-case hook step. -/
def hookStep3 : TestStep :=
  { id := 3, hookId := some ["hook2"], pickleStepId := none,
    stepDefinitionIds := none, stepMatchArgumentsLists := none }

/-- Expected test case of the with-test-case-hooks scenario. -/
def hookTestCase : TestCase :=
  { id := 0, pickleId := "pickleB", testSteps := [hookStep1, pickleStepB, hookStep3] }

/-- Registry of the with-step-hooks scenario: one step definition, one
BeforeStep hook, one AfterStep hook. -/
def stepHooksLib : SupportCodeLibrary :=
  ⟨[givenAStepDef], [], [], [⟨"hookB", none⟩], [⟨"hookA", none⟩]⟩

/-- A registry with no step definitions and no hooks. -/
def noMatchLib : SupportCodeLibrary := ⟨[], [], [], [], []⟩

/-- The parameterised step definition of the with-a-parameterised-step
scenario: a step with an int and a string placeholder. -/
def parameterisedDef : StepDefinition :=
  ⟨"def1", [.lit "a step with ", .param .int, .lit " and ", .param .string, .lit " parameters"]⟩

/-- The characters of a parameter-free pattern's literal text. -/
def litChars (parts : List PatternPart) : List Char :=
  (parts.map (fun q => match q with | .lit s => s.data | .param _ => [])).flatten

/-- The literal text of a parameter-free pattern. -/
def literalText (parts : List PatternPart) : String := String.mk (litChars parts)

/-! ### Helper lemmas -/

theorem mapWithState_length (f : α → Nat → β × Nat) :
    ∀ (as : List α) (c : Nat), (mapWithState f as c).1.length = as.length
  | [], _ => rfl
  | _ :: as, c => by
    simp [mapWithState, mapWithState_length f as]

theorem mapWithState_counter {f : α → Nat → β × Nat}
    (hf : ∀ a c, (f a c).2 = c + 1) :
    ∀ (as : List α) (c : Nat), (mapWithState f as c).2 = c + as.length
  | [], _ => rfl
  | a :: as, c => by
    simp [mapWithState, hf a c, mapWithState_counter hf as]
    omega

theorem mapWithState_ids {f : α → Nat → β × Nat} {g : β → Nat}
    (hf : ∀ a c, (f a c).2 = c + 1) (hg : ∀ a c, g (f a c).1 = c) :
    ∀ (as : List α) (c : Nat), ((mapWithState f as c).1).map g = List.range' c as.length
  | [], _ => rfl
  | a :: as, c => by
    simp [mapWithState, hg a c, hf a c, mapWithState_ids hf hg as, List.range'_succ]

theorem mapWithState_map {f : α → Nat → β × Nat} {g : β → γ} {h : α → γ}
    (hf : ∀ a c, g (f a c).1 = h a) :
    ∀ (as : List α) (c : Nat), ((mapWithState f as c).1).map g = as.map h
  | [], _ => rfl
  | a :: as, c => by
    simp [mapWithState, hf a c, mapWithState_map hf as]

theorem mapWithState_mem {f : α → Nat → β × Nat} :
    ∀ {as : List α} {c : Nat} {b : β}, b ∈ (mapWithState f as c).1 →
      ∃ a c', a ∈ as ∧ b = (f a c').1 := by
  intro as
  induction as with
  | nil => intro c b h; simp [mapWithState] at h
  | cons a as ih =>
    intro c b h
    simp only [mapWithState, List.mem_cons] at h
    rcases h with h | h
    · exact ⟨a, c, List.mem_cons_self a as, h⟩
    · obtain ⟨a', c', ha', hb⟩ := ih h
      exact ⟨a', c', List.mem_cons_of_mem a ha', hb⟩

theorem mapWithState_getElem? {f : α → Nat → β × Nat} :
    ∀ (as : List α) (c i : Nat) (h : i < as.length),
      ∃ c', ((mapWithState f as c).1)[i]? = some ((f (as.get ⟨i, h⟩)) c').1 := by
  intro as
  induction as with
  | nil => intro c i h; simp at h
  | cons a as ih =>
    intro c i h
    cases i with
    | zero => exact ⟨c, by simp [mapWithState]⟩
    | succ j =>
      obtain ⟨c', hc'⟩ := ih (f a c).2 j (by simpa using h)
      exact ⟨c', by simpa [mapWithState] using hc'⟩

theorem makeHookStep_counter (h : HookDefinition) (c : Nat) : (makeHookStep h c).2 = c + 1 := rfl

theorem makePickleStep_counter (lib : SupportCodeLibrary) (ps : PickleStep) (c : Nat) :
    (makePickleStep lib ps c).2 = c + 1 := rfl

theorem assembleTestCase_testSteps (lib : SupportCodeLibrary) (p : Pickle) (c : Nat) :
    (assembleTestCase lib p c).1.testSteps =
      (mapWithState makeHookStep (beforeHooks lib p) (c + 1)).1 ++
      (mapWithState (makePickleStep lib) p.steps (c + 1 + (beforeHooks lib p).length)).1 ++
      (mapWithState makeHookStep (afterHooks lib p)
        (c + 1 + (beforeHooks lib p).length + p.steps.length)).1 := by
  simp [assembleTestCase, mapWithState_counter makeHookStep_counter,
    mapWithState_counter (makePickleStep_counter lib)]

theorem assembleTestCase_counter (lib : SupportCodeLibrary) (p : Pickle) (c : Nat) :
    (assembleTestCase lib p c).2 =
      c + 1 + (beforeHooks lib p).length + p.steps.length + (afterHooks lib p).length := by
  simp [assembleTestCase, mapWithState_counter makeHookStep_counter,
    mapWithState_counter (makePickleStep_counter lib)]

theorem assembleTestCase_ids (lib : SupportCodeLibrary) (p : Pickle) (c : Nat) :
    emittedIds (assembleTestCase lib p c).1 =
      List.range' c
        (1 + (beforeHooks lib p).length + p.steps.length + (afterHooks lib p).length) := by
  have hb : ((mapWithState makeHookStep (beforeHooks lib p) (c + 1)).1).map TestStep.id =
      List.range' (c + 1) (beforeHooks lib p).length :=
    mapWithState_ids makeHookStep_counter (fun _ _ => rfl) _ _
  have hm : ((mapWithState (makePickleStep lib) p.steps
        (c + 1 + (beforeHooks lib p).length)).1).map TestStep.id =
      List.range' (c + 1 + (beforeHooks lib p).length) p.steps.length :=
    mapWithState_ids (makePickleStep_counter lib) (fun _ _ => rfl) _ _
  have ha : ((mapWithState makeHookStep (afterHooks lib p)
        (c + 1 + (beforeHooks lib p).length + p.steps.length)).1).map TestStep.id =
      List.range' (c + 1 + (beforeHooks lib p).length + p.steps.length)
        (afterHooks lib p).length :=
    mapWithState_ids makeHookStep_counter (fun _ _ => rfl) _ _
  rw [emittedIds, assembleTestCase_testSteps]
  show c :: _ = _
  rw [List.map_append, List.map_append, hb, hm, ha, List.append_assoc,
    List.range'_append_1, List.range'_append_1]
  have h2 : (afterHooks lib p).length + p.steps.length + (beforeHooks lib p).length + 1 =
      1 + (beforeHooks lib p).length + p.steps.length + (afterHooks lib p).length := by omega
  rw [← h2, ← List.range'_succ]

theorem assembleTestCases_envelope_count (lib : SupportCodeLibrary) :
    ∀ (ps : List Pickle) (c : Nat), ((assembleTestCases lib ps c).1).length = ps.length
  | [], _ => rfl
  | p :: ps, c => by
    simp [assembleTestCases, assembleTestCases_envelope_count lib ps]

theorem assembleTestCases_envelopes_map (lib : SupportCodeLibrary) :
    ∀ (ps : List Pickle) (c : Nat),
      ((assembleTestCases lib ps c).1).map (fun e => e.testCase.pickleId) = ps.map Pickle.id
  | [], _ => rfl
  | p :: ps, c => by
    simp [assembleTestCases, assembleTestCases_envelopes_map lib ps]
    rfl

theorem assembleTestCases_res_eq (lib : SupportCodeLibrary) :
    ∀ (ps : List Pickle) (c : Nat),
      (assembleTestCases lib ps c).2.1 =
        ((assembleTestCases lib ps c).1).map (fun e => (e.testCase.pickleId, e.testCase))
  | [], _ => rfl
  | p :: ps, c => by
    simp [assembleTestCases, assembleTestCases_res_eq lib ps]
    rfl

theorem assembleTestCases_keys (lib : SupportCodeLibrary) (ps : List Pickle) (c : Nat) :
    ((assembleTestCases lib ps c).2.1).map Prod.fst = ps.map Pickle.id := by
  rw [assembleTestCases_res_eq, List.map_map, ← assembleTestCases_envelopes_map lib ps c]
  rfl

theorem assembleTestCases_ids_range (lib : SupportCodeLibrary) :
    ∀ (ps : List Pickle) (c : Nat),
      c ≤ (assembleTestCases lib ps c).2.2 ∧
      allEmittedIds (assembleTestCases lib ps c).1 =
        List.range' c ((assembleTestCases lib ps c).2.2 - c)
  | [], c => by simp [assembleTestCases, allEmittedIds]
  | p :: ps, c => by
    have hc1 : (assembleTestCase lib p c).2 =
        c + (1 + (beforeHooks lib p).length + p.steps.length + (afterHooks lib p).length) := by
      rw [assembleTestCase_counter]; omega
    obtain ⟨hle, hids⟩ := assembleTestCases_ids_range lib ps (assembleTestCase lib p c).2
    rw [hc1] at hle hids
    constructor
    · show c ≤ (assembleTestCases lib ps (assembleTestCase lib p c).2).2.2
      rw [hc1]
      omega
    · show emittedIds (assembleTestCase lib p c).1 ++
          allEmittedIds (assembleTestCases lib ps (assembleTestCase lib p c).2).1 =
          List.range' c ((assembleTestCases lib ps (assembleTestCase lib p c).2).2.2 - c)
      rw [hc1, hids, assembleTestCase_ids, List.range'_append_1]
      congr 1
      omega

theorem assembleTestCases_mem_envelope {lib : SupportCodeLibrary} :
    ∀ {ps : List Pickle} {c : Nat} {e : Envelope}, e ∈ (assembleTestCases lib ps c).1 →
      ∃ p c', p ∈ ps ∧ e = Envelope.mk (assembleTestCase lib p c').1 := by
  intro ps
  induction ps with
  | nil => intro c e h; simp [assembleTestCases] at h
  | cons p ps ih =>
    intro c e h
    simp only [assembleTestCases, List.mem_cons] at h
    rcases h with h | h
    · exact ⟨p, c, List.mem_cons_self p ps, h⟩
    · obtain ⟨p', c', hp', he⟩ := ih h
      exact ⟨p', c', List.mem_cons_of_mem p hp', he⟩

theorem stripPrefixChars_append : ∀ (l r : List Char), stripPrefixChars l (l ++ r) = some r
  | [], _ => rfl
  | c :: l, r => by simp [stripPrefixChars, stripPrefixChars_append l r]

theorem matchPartsFrom_all_lit : ∀ (parts : List PatternPart),
    (∀ q ∈ parts, ∃ s, q = PatternPart.lit s) → ∀ (pos : Nat),
      matchPartsFrom parts (litChars parts) pos = some []
  | [], _, _ => rfl
  | q :: parts, hp, pos => by
    obtain ⟨s, rfl⟩ := hp q (List.mem_cons_self q parts)
    have hlc : litChars (.lit s :: parts) = s.data ++ litChars parts := by
      simp [litChars]
    simp only [matchPartsFrom, hlc, stripPrefixChars_append]
    exact matchPartsFrom_all_lit parts (fun q hq => hp q (List.mem_cons_of_mem _ hq)) _

/-! ### Claims -/

/-- Claim C1: for every input sequence of pickles (whose identifiers are
distinct, as guaranteed for pickle identifiers), the mapping returned by
assembleTestCases has exactly one entry per input pickle: its length equals
the number of input pickles and every pickle identifier appears as a key
exactly once. -/
theorem assembleTestCases_mapping_per_pickle (lib : SupportCodeLibrary) (ps : List Pickle)
    (c : Nat) (h : (ps.map Pickle.id).Nodup) :
    ((assembleTestCases lib ps c).2.1).length = ps.length ∧
    ∀ p ∈ ps, (((assembleTestCases lib ps c).2.1).map Prod.fst).count p.id = 1 := by
  constructor
  · have hkeys := congrArg List.length (assembleTestCases_keys lib ps c)
    simpa using hkeys
  · intro p hp
    rw [assembleTestCases_keys]
    exact List.count_eq_one_of_mem h (List.mem_map_of_mem Pickle.id hp)

/-- Witness for C1: the two-scenario input of the emits-testCase-messages
test satisfies the distinctness hypothesis and the conclusion. -/
theorem assembleTestCases_mapping_per_pickle_witness :
    (([pickleB, pickleC].map Pickle.id).Nodup) ∧
    (((assembleTestCases twoScenarioLib [pickleB, pickleC] 0).2.1).length =
        [pickleB, pickleC].length ∧
      ∀ p ∈ [pickleB, pickleC],
        (((assembleTestCases twoScenarioLib [pickleB, pickleC] 0).2.1).map Prod.fst).count p.id
          = 1) :=
  ⟨by decide, assembleTestCases_mapping_per_pickle twoScenarioLib [pickleB, pickleC] 0 (by decide)⟩

/-- Claim C2: assembleTestCases publishes exactly one testCase envelope per
pickle, and the sequence of published envelopes has the same length and the
same order as the input pickle sequence (the i-th envelope wraps the test
case of the i-th pickle). -/
theorem assembleTestCases_envelopes_inorder (lib : SupportCodeLibrary) (ps : List Pickle)
    (c : Nat) :
    ((assembleTestCases lib ps c).1).length = ps.length ∧
    ((assembleTestCases lib ps c).1).map (fun e => e.testCase.pickleId) = ps.map Pickle.id :=
  ⟨assembleTestCases_envelope_count lib ps c, assembleTestCases_envelopes_map lib ps c⟩

/-- Claim C10: the returned mapping and the published envelope stream
describe the same plan: the mapping is exactly the list of published test
cases keyed by their pickle identifier, and those keys follow the input
pickles, so the entry under a pickle's identifier is the test case wrapped
in that pickle's envelope. -/
theorem result_agrees_with_envelopes (lib : SupportCodeLibrary) (ps : List Pickle) (c : Nat) :
    (assembleTestCases lib ps c).2.1 =
      ((assembleTestCases lib ps c).1).map (fun e => (e.testCase.pickleId, e.testCase)) ∧
    ((assembleTestCases lib ps c).2.1).map Prod.fst = ps.map Pickle.id :=
  ⟨assembleTestCases_res_eq lib ps c, assembleTestCases_keys lib ps c⟩

/-- Claim C4: for every pickle, the first k test steps (k the number of
matching before-case hooks) carry the single-element hookId lists of those
hooks in registration order, and the last m test steps (m the number of
matching after-case hooks) do likewise; in particular the
with-test-case-hooks scenario (one before-case hook, one step, one
after-case hook) yields the 3-step test case whose step 0 has only hookId,
step 1 has pickleStepId plus matched definition and argument list, and
step 2 has only hookId. -/
theorem case_hook_steps_positions (lib : SupportCodeLibrary) (p : Pickle) (c : Nat) :
    (((assembleTestCase lib p c).1.testSteps).take (beforeHooks lib p).length).map
        TestStep.hookId = (beforeHooks lib p).map (fun h => some [h.id]) ∧
    (((assembleTestCase lib p c).1.testSteps).drop
        ((assembleTestCase lib p c).1.testSteps.length - (afterHooks lib p).length)).map
        TestStep.hookId = (afterHooks lib p).map (fun h => some [h.id]) ∧
    assembleTestCase caseHooksLib pickleB 0 = (hookTestCase, 4) := by
  refine ⟨?_, ?_, rfl⟩
  · rw [assembleTestCase_testSteps, List.append_assoc,
      List.take_left' (mapWithState_length _ _ _)]
    exact mapWithState_map (f := makeHookStep) (g := TestStep.hookId)
      (h := fun h => some [h.id]) (fun _ _ => rfl) _ _
  · rw [assembleTestCase_testSteps]
    have hL : ((mapWithState makeHookStep (beforeHooks lib p) (c + 1)).1 ++
          (mapWithState (makePickleStep lib) p.steps
            (c + 1 + (beforeHooks lib p).length)).1).length =
        ((mapWithState makeHookStep (beforeHooks lib p) (c + 1)).1 ++
            (mapWithState (makePickleStep lib) p.steps
              (c + 1 + (beforeHooks lib p).length)).1 ++
            (mapWithState makeHookStep (afterHooks lib p)
              (c + 1 + (beforeHooks lib p).length + p.steps.length)).1).length -
          (afterHooks lib p).length := by
      simp only [List.length_append, mapWithState_length]
      omega
    rw [List.drop_left' hL]
    exact mapWithState_map (f := makeHookStep) (g := TestStep.hookId)
      (h := fun h => some [h.id]) (fun _ _ => rfl) _ _

/-- Claim C5: under the incrementing identifier strategy, the identifiers
assigned in one assembleTestCases call (test-case and test-step identifiers
together) are strictly increasing in emission order, hence unique; in
particular the two-scenario input yields identifiers 0,1,2,3 assigned in the
order case0, step0, case1, step1, each test step's stepMatchArgumentsLists
holding one entry with an empty argument list. -/
theorem identifiers_strictly_increasing (lib : SupportCodeLibrary) (ps : List Pickle)
    (c : Nat) :
    List.Pairwise (· < ·) (allEmittedIds (assembleTestCases lib ps c).1) ∧
    (allEmittedIds (assembleTestCases lib ps c).1).Nodup ∧
    (assembleTestCases twoScenarioLib [pickleB, pickleC] 0).1 =
      [Envelope.mk testCase1, Envelope.mk testCase2] ∧
    allEmittedIds (assembleTestCases twoScenarioLib [pickleB, pickleC] 0).1 = [0, 1, 2, 3] := by
  refine ⟨?_, ?_, rfl, rfl⟩
  · rw [(assembleTestCases_ids_range lib ps c).2]
    exact List.pairwise_lt_range' _ _
  · rw [(assembleTestCases_ids_range lib ps c).2]
    exact List.nodup_range' _ _

/-- Claim C3 counterexample: in the with-step-hooks scenario one before-step
hook and one after-step hook are registered and both apply to the pickle
(they carry no tag expression), yet the assembled test case holds a single
test step, the pickle-step TestStep, with no hook step before or after it:
step hooks do not surround the pickle step with hook TestSteps. -/
theorem step_hooks_claim_counterexample :
    stepHooksLib.beforeTestStepHookDefinitions = [HookDefinition.mk "hookB" none] ∧
    stepHooksLib.afterTestStepHookDefinitions = [HookDefinition.mk "hookA" none] ∧
    appliesToTestCase (HookDefinition.mk "hookB" none) pickleB = true ∧
    appliesToTestCase (HookDefinition.mk "hookA" none) pickleB = true ∧
    ((assembleTestCase stepHooksLib pickleB 0).1.testSteps).map TestStep.hookId = [none] :=
  ⟨rfl, rfl, rfl, rfl, rfl⟩

/-- Claim C3 amended: registered before-step and after-step hooks contribute
no TestSteps to the assembled TestCase — assembly is unchanged by them — and
the step sequence is the before-case hook steps, then exactly one pickle-step
TestStep per pickle step in pickle order, then the after-case hook steps. -/
theorem step_hooks_no_test_steps (lib : SupportCodeLibrary) (p : Pickle) (c : Nat)
    (bsh ash : List HookDefinition) :
    assembleTestCase lib p c =
      assembleTestCase
        { lib with beforeTestStepHookDefinitions := bsh,
                   afterTestStepHookDefinitions := ash } p c ∧
    (((((assembleTestCase lib p c).1.testSteps).drop (beforeHooks lib p).length).take
        p.steps.length).map TestStep.pickleStepId) = p.steps.map (fun s => some s.id) ∧
    (assembleTestCase lib p c).1.testSteps.length =
      (beforeHooks lib p).length + p.steps.length + (afterHooks lib p).length := by
  refine ⟨rfl, ?_, ?_⟩
  · rw [assembleTestCase_testSteps, List.append_assoc,
      List.drop_left' (mapWithState_length _ _ _),
      List.take_left' (mapWithState_length _ _ _)]
    exact mapWithState_map (f := makePickleStep lib) (g := TestStep.pickleStepId)
      (h := fun s => some s.id) (fun _ _ => rfl) _ _
  · rw [assembleTestCase_testSteps]
    simp only [List.length_append, mapWithState_length]

/-- Claim C6: matching the step text of the with-a-parameterised-step
scenario against the int-and-string definition yields exactly one match
whose two StepMatchArguments are: parameterTypeName int with group value 1,
start 12, no children; and parameterTypeName string with group value
double-quoted foo, start 18, whose children are the participating content
group (value foo, start 19, one empty child) followed by a
non-participating group with one empty child. -/
theorem parameterised_step_match :
    matchSteps [parameterisedDef] "a step with 1 and \"foo\" parameters" =
      [("def1",
        [StepMatchArgument.mk "int" (Group.mk (some "1") (some 12) []),
         StepMatchArgument.mk "string"
           (Group.mk (some "\"foo\"") (some 18)
             [Group.mk (some "foo") (some 19) [Group.mk none none []],
              Group.mk none none [Group.mk none none []]])])] := rfl

/-- Claim C7: a step definition whose pattern contains no parameters,
matched against step text equal to its literal pattern, yields exactly one
match with an empty argument list, and the emitted pickle-step TestStep's
stepMatchArgumentsLists is a present one-entry list whose
stepMatchArguments list is empty. -/
theorem literal_pattern_roundtrip (parts : List PatternPart)
    (hp : ∀ q ∈ parts, ∃ s, q = PatternPart.lit s) (i psid : String) (c : Nat) :
    matchSteps [StepDefinition.mk i parts] (literalText parts) = [(i, [])] ∧
    (makePickleStep (SupportCodeLibrary.mk [StepDefinition.mk i parts] [] [] [] [])
        (PickleStep.mk psid (literalText parts)) c).1.stepMatchArgumentsLists =
      some [StepMatchArgumentsList.mk []] := by
  have hm : matchPattern parts (literalText parts) = some [] := by
    show matchPartsFrom parts (literalText parts).data 0 = some []
    have hd : (literalText parts).data = litChars parts := rfl
    rw [hd]
    exact matchPartsFrom_all_lit parts hp 0
  constructor
  · simp [matchSteps, hm]
  · simp [makePickleStep, matchSteps, hm]

/-- Witness for C7: the parameter-free pattern a step, matched against its
own literal text. -/
theorem literal_pattern_roundtrip_witness :
    (∀ q ∈ [PatternPart.lit "a step"], ∃ s, q = PatternPart.lit s) ∧
    (matchSteps [StepDefinition.mk "def1" [PatternPart.lit "a step"]]
        (literalText [PatternPart.lit "a step"]) = [("def1", [])] ∧
      (makePickleStep
          (SupportCodeLibrary.mk [StepDefinition.mk "def1" [PatternPart.lit "a step"]] [] [] [] [])
          (PickleStep.mk "psB1" (literalText [PatternPart.lit "a step"]))
          5).1.stepMatchArgumentsLists = some [StepMatchArgumentsList.mk []]) :=
  ⟨fun q hq => ⟨"a step", by simpa using hq⟩,
   literal_pattern_roundtrip [PatternPart.lit "a step"]
     (fun q hq => ⟨"a step", by simpa using hq⟩) "def1" "psB1" 5⟩

/-- Claim C8: every TestStep of every emitted TestCase has exactly one of
the two mutually exclusive shapes, distinguished by field presence: either
it carries a hookId list and none of the pickle-step fields, or it carries
pickleStepId, stepDefinitionIds and stepMatchArgumentsLists and no hookId. -/
theorem test_step_shape_dichotomy (lib : SupportCodeLibrary) (ps : List Pickle) (c : Nat)
    (e : Envelope) (he : e ∈ (assembleTestCases lib ps c).1)
    (ts : TestStep) (hts : ts ∈ e.testCase.testSteps) :
    ((∃ ids, ts.hookId = some ids) ∧ ts.pickleStepId = none ∧
      ts.stepDefinitionIds = none ∧ ts.stepMatchArgumentsLists = none) ∨
    (ts.hookId = none ∧ (∃ sid, ts.pickleStepId = some sid) ∧
      (∃ ds, ts.stepDefinitionIds = some ds) ∧
      (∃ ls, ts.stepMatchArgumentsLists = some ls)) := by
  obtain ⟨p, c', _, he'⟩ := assembleTestCases_mem_envelope he
  subst he'
  change ts ∈ (assembleTestCase lib p c').1.testSteps at hts
  rw [assembleTestCase_testSteps] at hts
  simp only [List.mem_append] at hts
  rcases hts with (hts | hts) | hts
  · obtain ⟨a, c'', _, hb⟩ := mapWithState_mem hts
    subst hb
    exact Or.inl ⟨⟨[a.id], rfl⟩, rfl, rfl, rfl⟩
  · obtain ⟨a, c'', _, hb⟩ := mapWithState_mem hts
    subst hb
    exact Or.inr ⟨rfl, ⟨a.id, rfl⟩, ⟨_, rfl⟩, ⟨_, rfl⟩⟩
  · obtain ⟨a, c'', _, hb⟩ := mapWithState_mem hts
    subst hb
    exact Or.inl ⟨⟨[a.id], rfl⟩, rfl, rfl, rfl⟩

/-- Witness for C8: the before-case hook step of the with-test-case-hooks
scenario, inside its published envelope. -/
theorem test_step_shape_dichotomy_witness :
    (Envelope.mk hookTestCase ∈ (assembleTestCases caseHooksLib [pickleB] 0).1) ∧
    (hookStep1 ∈ (Envelope.mk hookTestCase).testCase.testSteps) ∧
    (((∃ ids, hookStep1.hookId = some ids) ∧ hookStep1.pickleStepId = none ∧
        hookStep1.stepDefinitionIds = none ∧ hookStep1.stepMatchArgumentsLists = none) ∨
      (hookStep1.hookId = none ∧ (∃ sid, hookStep1.pickleStepId = some sid) ∧
        (∃ ds, hookStep1.stepDefinitionIds = some ds) ∧
        (∃ ls, hookStep1.stepMatchArgumentsLists = some ls))) := by
  have hE : (assembleTestCases caseHooksLib [pickleB] 0).1 = [Envelope.mk hookTestCase] := rfl
  have he : Envelope.mk hookTestCase ∈ (assembleTestCases caseHooksLib [pickleB] 0).1 := by
    rw [hE]
    exact List.mem_cons_self _ _
  have hts : hookStep1 ∈ (Envelope.mk hookTestCase).testCase.testSteps := by
    show hookStep1 ∈ [hookStep1, pickleStepB, hookStep3]
    exact List.mem_cons_self _ _
  exact ⟨he, hts, test_step_shape_dichotomy caseHooksLib [pickleB] 0 _ he hookStep1 hts⟩

/-- Claim C9: a pickle step whose text matches zero registered step
definitions is assembled without error: its pickle-step TestStep (the i-th
step after the before-case hook steps) carries an empty stepDefinitionIds
list and an empty stepMatchArgumentsLists list. -/
theorem undefined_step_empty_lists (lib : SupportCodeLibrary) (p : Pickle) (c i : Nat)
    (h : i < p.steps.length)
    (hm : matchSteps lib.stepDefinitions (p.steps.get ⟨i, h⟩).text = []) :
    ∃ ts, ((((assembleTestCase lib p c).1.testSteps).drop (beforeHooks lib p).length)[i]?
        = some ts) ∧
      ts.pickleStepId = some (p.steps.get ⟨i, h⟩).id ∧
      ts.stepDefinitionIds = some [] ∧
      ts.stepMatchArgumentsLists = some [] := by
  obtain ⟨c', hc'⟩ := mapWithState_getElem? (f := makePickleStep lib) p.steps
    (c + 1 + (beforeHooks lib p).length) i h
  refine ⟨(makePickleStep lib (p.steps.get ⟨i, h⟩) c').1, ?_, rfl, ?_, ?_⟩
  · rw [assembleTestCase_testSteps, List.append_assoc,
      List.drop_left' (mapWithState_length _ _ _),
      List.getElem?_append_left (by rw [mapWithState_length]; exact h)]
    exact hc'
  · have hm' : matchSteps lib.stepDefinitions p.steps[i].text = [] := hm
    simp [makePickleStep, hm']
  · have hm' : matchSteps lib.stepDefinitions p.steps[i].text = [] := hm
    simp [makePickleStep, hm']

/-- Witness for C9: a pickle step with an empty step-definition registry. -/
theorem undefined_step_empty_lists_witness :
    (0 < pickleB.steps.length) ∧
    (∃ ts, ((((assembleTestCase noMatchLib pickleB 7).1.testSteps).drop
          (beforeHooks noMatchLib pickleB).length)[0]? = some ts) ∧
      ts.pickleStepId = some (pickleB.steps.get ⟨0, by decide⟩).id ∧
      ts.stepDefinitionIds = some [] ∧
      ts.stepMatchArgumentsLists = some []) :=
  ⟨by decide, undefined_step_empty_lists noMatchLib pickleB 7 0 (by decide) rfl⟩

end AssembleTestCases
